import Mathlib

/-!
# Session Tree Orchestrator — verification of the spec against the code

A shallow embedding of the tree-structured learning-session core of the
repository (frontend services `cachedSessionService.ts`, `searchService.ts`,
the `NodeCarousel` carousel builder, the `HomePage` session-load effect),
together with the parts of the Tree Store / Navigation Engine / Generation
Orchestrator that the repository only ships as callers (`TreeState.ts` and
`VideoController.tsx` are imported but their sources are not in the tree);
those parts are modelled from the specification and are marked as such.

JavaScript strings are modelled as `List Char`; a JS `Map` (which preserves
insertion order and keeps the original position on overwrite) is modelled as
an association list with a `mapSet` that overwrites in place.  Fallible or
effectful operations (fetch, JSON parse, localStorage) take their outcome as
an explicit argument and return `Option`.
-/

/-- A JS string. -/
abbrev JStr := List Char

/-- Key lookup in an association list modelling a JS `Map` / object record. -/
def mapGet (m : List (JStr × α)) (k : JStr) : Option α :=
  (m.find? (fun p => p.1 = k)).map (·.2)

/-- Membership test: `Map.prototype.has`, or the JS `in` operator on a record. -/
def mapHas (m : List (JStr × α)) (k : JStr) : Bool :=
  (m.find? (fun p => p.1 = k)).isSome

/-- Insertion, `Map.prototype.set`: overwrite in place when the key exists (JS
Maps keep the original insertion position), append otherwise. -/
def mapSet (m : List (JStr × α)) (k : JStr) (v : α) : List (JStr × α) :=
  if m.any (fun p => p.1 = k) then
    m.map (fun p => if p.1 = k then (k, v) else p)
  else m ++ [(k, v)]

/-! ## String normalization (`normalizeText`, cachedSessionService.ts 107-113) -/

/-- Characters matched by the JavaScript regex class `\s`. -/
def isJsSpace (c : Char) : Bool :=
  [9, 10, 11, 12, 13, 32, 160, 0x1680, 0x2000, 0x2001, 0x2002, 0x2003, 0x2004,
    0x2005, 0x2006, 0x2007, 0x2008, 0x2009, 0x200A, 0x2028, 0x2029, 0x202F,
    0x205F, 0x3000, 0xFEFF].any (fun n => c.toNat = n)

/-- ASCII lowercasing as performed by `String.prototype.toLowerCase` on the
characters relevant here. -/
def jsToLower (c : Char) : Char :=
  if 65 ≤ c.toNat ∧ c.toNat ≤ 90 then Char.ofNat (c.toNat + 32) else c

/-- A character kept (not replaced by a space) by `.replace(/[^a-z0-9\s]/g, ' ')`. -/
def keepChar (c : Char) : Bool :=
  (97 ≤ c.toNat ∧ c.toNat ≤ 122) ∨ (48 ≤ c.toNat ∧ c.toNat ≤ 57) ∨ isJsSpace c

/-- Helper for `collapseWs`: the boolean records whether the previous
character belonged to a `\s` run already replaced by a space. -/
def collapseWsAux : Bool → JStr → JStr
  | _, [] => []
  | inRun, c :: rest =>
    if isJsSpace c then
      if inRun then collapseWsAux true rest
      else ' ' :: collapseWsAux true rest
    else c :: collapseWsAux false rest

/-- Whitespace collapsing, `.replace(/\s+/g, ' ')`: each maximal run of `\s`
characters becomes one space. -/
def collapseWs (s : JStr) : JStr := collapseWsAux false s

/-- Trimming, `String.prototype.trim`: strip `\s` characters from both ends. -/
def jsTrim (s : JStr) : JStr :=
  ((s.dropWhile isJsSpace).reverse.dropWhile isJsSpace).reverse

/-- Model of `normalizeText` (cachedSessionService.ts 107-113): lowercase, replace every
character outside `[a-z0-9\s]` by a space, collapse whitespace runs to a single
space, trim. -/
def normalizeText (s : JStr) : JStr :=
  jsTrim (collapseWs ((s.map jsToLower).map (fun c => if keepChar c then c else ' ')))

/-! ## The fixed cached-session table (cachedSessionService.ts 17-21) -/

/-- The `CACHED_SESSIONS` record: topic name ↦ GCS url. -/
def CACHED_SESSIONS : List (JStr × JStr) :=
  [("Binary Search Trees".toList, "https://storage.googleapis.com/vid-gen-static/cached/binary-search-trees.json".toList),
   ("Photosynthesis".toList, "https://storage.googleapis.com/vid-gen-static/cached/photosynthesis.json".toList),
   ("Pythagoras Theorem".toList, "https://storage.googleapis.com/vid-gen-static/cached/pythagoras-theorem.json".toList)]

/-- Property names a plain object literal inherits from `Object.prototype`:
the JS `in` operator answers true for them, and bracket lookup yields an
inherited function (or, for `__proto__`, the prototype object) — a truthy
value in every case. -/
def OBJECT_PROTOTYPE_KEYS : List JStr :=
  ["constructor".toList, "hasOwnProperty".toList, "isPrototypeOf".toList,
   "propertyIsEnumerable".toList, "toLocaleString".toList, "toString".toList,
   "valueOf".toList, "__proto__".toList, "__defineGetter__".toList,
   "__defineSetter__".toList, "__lookupGetter__".toList, "__lookupSetter__".toList]

/-- The JS `in` operator on a plain object literal: an own key, or a property
inherited from `Object.prototype`.  On this record the truthiness of bracket
lookup coincides with `in` — own values are non-empty url strings and
inherited values are functions or the prototype object, all truthy. -/
def jsObjectHas (m : List (JStr × α)) (k : JStr) : Bool :=
  mapHas m k || OBJECT_PROTOTYPE_KEYS.any (fun p => p = k)

/-- Model of `hasCachedSession` (cachedSessionService.ts 26-28): the JS `in`
operator against the record — an exact, unnormalized lookup that also answers
true for property names inherited from `Object.prototype`. -/
def hasCachedSession (topic : JStr) : Bool :=
  jsObjectHas CACHED_SESSIONS topic

/-- Model of `getCachedTopics` (cachedSessionService.ts 100-102): `Object.keys`. -/
def getCachedTopics : List JStr :=
  CACHED_SESSIONS.map Prod.fst

/-- Substring test `a.includes(b)` on JS strings: `b` occurs as a contiguous
substring of `a`. -/
def jsIncludes (hay needle : JStr) : Bool :=
  decide (needle <:+: hay)

/-- Model of `matchQuestionToCachedTopic` (cachedSessionService.ts 119-136): normalize
the question; empty ⇒ null; otherwise the first cached topic whose normalized
form contains, or is contained in, the normalized question. -/
def matchQuestionToCachedTopic (question : JStr) : Option JStr :=
  let normalizedQuestion := normalizeText question
  if normalizedQuestion = [] then none
  else
    getCachedTopics.find? (fun topic =>
      jsIncludes (normalizeText question) (normalizeText topic) ||
      jsIncludes (normalizeText topic) (normalizeText question))

/-! ## Data model (spec §3; types/VideoConfig.ts and types/TreeState.ts are
imported by the sources but not present in the tree, so the record shapes
follow the spec's data model and the fields the present sources access) -/

/-- Payload of one generated unit: the fields accessed by the sources in the
tree (searchService.ts, NodeCarousel.tsx, InputOverlay props), including the
optional search metadata (`description`, `embedding`). -/
structure VideoSegment where
  topic : JStr
  title : Option JStr
  voiceoverScript : Option JStr
  thumbnailUrl : Option JStr
  videoUrl : Option JStr
  isQuestionNode : Bool
  hasQuestion : Bool
  questionText : Option JStr
  renderingStatus : Option JStr
  embedding : Option (List ℤ)
  description : Option JStr
deriving DecidableEq

/-- A node of the session tree (spec §3). -/
structure VideoNode where
  id : JStr
  segment : VideoSegment
  parentId : Option JStr
  childIds : List JStr
  branchIndex : Nat
  branchLabel : Option JStr
deriving DecidableEq

/-- The branching session tree: `nodes` is a JS `Map` in insertion order. -/
structure LearningTree where
  nodes : List (JStr × VideoNode)
  rootIds : List JStr
  currentNodeId : JStr
deriving DecidableEq

/-- Session context (spec §3); only the fields the present sources read. -/
structure SessionContext where
  initialTopic : JStr
  historyTopics : List JStr
  depth : Nat
  voiceId : Option JStr
deriving DecidableEq

/-- A full session: tree + context + id.  The parsed JSON of a serialized
session has the same shape, with `tree.nodes` read as the serialized
`[id, node]` pair array. -/
structure VideoSession where
  tree : LearningTree
  context : SessionContext
  sessionId : JStr
deriving DecidableEq

/-! ## Structural invariants (spec §3 and §8) -/

/-- Every entry of every node's `childIds` is a key of the node map. -/
def childIdsExist (t : LearningTree) : Bool :=
  t.nodes.all (fun p => p.2.childIds.all (fun c => mapHas t.nodes c))

/-- Every node with a `parentId` appears exactly once in that parent's `childIds`. -/
def parentLinkOnce (t : LearningTree) : Bool :=
  t.nodes.all (fun p =>
    match p.2.parentId with
    | none => true
    | some pid =>
      match mapGet t.nodes pid with
      | none => false
      | some parent => parent.childIds.countP (fun c => decide (c = p.1)) = 1)

/-- The roots are exactly the nodes with no `parentId`, and every root id exists. -/
def rootsExact (t : LearningTree) : Bool :=
  t.nodes.all (fun p => p.2.parentId.isNone = t.rootIds.any (fun r => r = p.1)) &&
  t.rootIds.all (fun r => mapHas t.nodes r)

/-- The current node is a key present in the node map. -/
def currentOK (t : LearningTree) : Bool :=
  mapHas t.nodes t.currentNodeId

/-- Conjunction of the structural invariants of spec §3 named by the claims. -/
def structuralOK (t : LearningTree) : Bool :=
  childIdsExist t && parentLinkOnce t && rootsExact t && currentOK t

/-! ## Cache Resolver: loadCachedSession (cachedSessionService.ts 34-95) -/

/-- Explicit per-field reconstruction of a node's segment, mirroring the
spread plus the explicit `embedding` / `description` copies of lines 64-69. -/
def reconstructSegment (s : VideoSegment) : VideoSegment :=
  { topic := s.topic, title := s.title, voiceoverScript := s.voiceoverScript,
    thumbnailUrl := s.thumbnailUrl, videoUrl := s.videoUrl,
    isQuestionNode := s.isQuestionNode, hasQuestion := s.hasQuestion,
    questionText := s.questionText, renderingStatus := s.renderingStatus,
    embedding := s.embedding, description := s.description }

/-- Explicit reconstruction of a node (lines 62-74). -/
def reconstructNode (nd : VideoNode) : VideoNode :=
  { id := nd.id, segment := reconstructSegment nd.segment, parentId := nd.parentId,
    childIds := nd.childIds, branchIndex := nd.branchIndex, branchLabel := nd.branchLabel }

/-- Outcome of the `fetch` + `response.json()` step, which is external I/O:
either a failure (network error, non-ok HTTP status, JSON parse error) or the
parsed serialized session. -/
inductive FetchOutcome where
  | networkError
  | httpError (status : Nat)
  | parseError
  | ok (data : VideoSession)

/-- The loop of lines 60-75: fold the serialized `[id, node]` pairs into a
fresh `Map` with `Map.prototype.set`. -/
def rebuildNodesMap (pairs : List (JStr × VideoNode)) : List (JStr × VideoNode) :=
  pairs.foldl (fun m p => mapSet m p.1 (reconstructNode p.2)) []

/-- Model of `loadCachedSession` (cachedSessionService.ts 34-95).  The guard
is the truthiness of the bracket lookup `CACHED_SESSIONS[topic]`: falsy (an
absent key yields `undefined`) short-circuits to `null`, while an own key — or
a property name inherited from `Object.prototype`, whose inherited value is
truthy — proceeds to the fetch.  Any failed fetch outcome yields `none` (the
function catches every error and returns `null`), and a parsed session is
rebuilt node by node. -/
def loadCachedSession (topic : JStr) (outcome : FetchOutcome) : Option VideoSession :=
  if jsObjectHas CACHED_SESSIONS topic then
    match outcome with
    | .ok data =>
      some { tree := { nodes := rebuildNodesMap data.tree.nodes,
                       rootIds := data.tree.rootIds,
                       currentNodeId := data.tree.currentNodeId },
             context := data.context, sessionId := data.sessionId }
    | _ => none
  else none

/-! ## HomePage load-session effect (GraphPage.tsx 1090-1124, `HomePage`) -/

/-- Result of the mount effect: nothing loaded (no stored session or empty
tree), session rejected (invalid current node and no roots), or the session
placed into component state. -/
inductive LoadResult where
  | stayLanding
  | rejected
  | loaded (s : VideoSession)
deriving DecidableEq

/-- Model of the `useEffect` at GraphPage.tsx 1090-1124: validate the stored
`currentNodeId` (JS truthiness makes the empty string invalid), resetting it
to the first root when invalid, and refusing to load when no root exists. -/
def loadSessionEffect (stored : Option VideoSession) : LoadResult :=
  match stored with
  | none => .stayLanding
  | some cached =>
    if cached.tree.nodes.length = 0 then .stayLanding
    else if cached.tree.currentNodeId ≠ [] ∧ mapHas cached.tree.nodes cached.tree.currentNodeId = true then
      .loaded cached
    else
      match cached.tree.rootIds with
      | [] => .rejected
      | r :: _ => .loaded { cached with tree := { cached.tree with currentNodeId := r } }

/-! ## Navigation Engine (spec §4.2).  `TreeState.ts` is imported throughout
the sources but its file is not in the tree, so these are modelled from the
specification. -/

/-- Sibling order: ascending `branchIndex`. -/
def byBranchIndex (a b : VideoNode) : Prop := a.branchIndex ≤ b.branchIndex

instance : DecidableRel byBranchIndex := fun a b => Nat.decLe a.branchIndex b.branchIndex

instance : IsTotal VideoNode byBranchIndex := ⟨fun a b => Nat.le_total a.branchIndex b.branchIndex⟩

instance : IsTrans VideoNode byBranchIndex := ⟨fun _ _ _ h h' => Nat.le_trans h h'⟩

/-- Modelled from the spec: `getChildren(tree, nodeId)` (§4.2, `TreeState.ts`
missing from the tree) returns the child nodes ordered by `branchIndex`. -/
def getChildren (t : LearningTree) (nodeId : JStr) : List VideoNode :=
  match mapGet t.nodes nodeId with
  | none => []
  | some n => List.insertionSort byBranchIndex (n.childIds.filterMap (mapGet t.nodes))

/-- Modelled from the spec: `getNextNode(tree, nodeId)` (§4.2, `TreeState.ts`
missing from the tree) returns the first child — lowest `branchIndex` — if any
exist, else none. -/
def getNextNode (t : LearningTree) (nodeId : JStr) : Option VideoNode :=
  (getChildren t nodeId).head?

/-- Modelled from the spec: `getPreviousNode(tree, nodeId)` (§4.2,
`TreeState.ts` missing from the tree) returns the parent, or none if `nodeId`
is a root. -/
def getPreviousNode (t : LearningTree) (nodeId : JStr) : Option VideoNode :=
  match mapGet t.nodes nodeId with
  | none => none
  | some n =>
    match n.parentId with
    | none => none
    | some pid => mapGet t.nodes pid

/-- Modelled from the spec: `getCurrentNode(tree)` (`TreeState.ts` missing
from the tree) looks the tree's `currentNodeId` up in the node map. -/
def getCurrentNode (t : LearningTree) : Option VideoNode :=
  mapGet t.nodes t.currentNodeId

/-- Modelled from the spec: `getAllNodes(tree)` (`TreeState.ts` missing from
the tree) returns the values of the node map in insertion order. -/
def getAllNodes (t : LearningTree) : List VideoNode :=
  t.nodes.map Prod.snd

/-- Fuel-bounded walk along `parentId` links, most recent node first; the fuel
covers any acyclic tree since a path visits each node at most once. -/
def pathToRootAux : Nat → LearningTree → JStr → List VideoNode
  | 0, _, _ => []
  | fuel + 1, t, nid =>
    match mapGet t.nodes nid with
    | none => []
    | some n =>
      match n.parentId with
      | none => [n]
      | some pid => n :: pathToRootAux fuel t pid

/-- Modelled from the spec: `getPathFromRoot(tree, nodeId)` (§4.2,
`TreeState.ts` missing from the tree) walks `parentId` links to a root and
reverses, producing the ordered sequence from the root to the node. -/
def getPathFromRoot (t : LearningTree) (nodeId : JStr) : List VideoNode :=
  (pathToRootAux (t.nodes.length + 1) t nodeId).reverse

/-- Well-formedness of a tree snapshot used by the navigation theorems: node
map keys agree with node ids, parents referenced by `parentId` exist, and
every `childIds` entry names an existing node whose `parentId` points back. -/
def TreeWF (t : LearningTree) : Bool :=
  t.nodes.all (fun p =>
    decide (p.2.id = p.1) &&
    (match p.2.parentId with
     | none => true
     | some pid => mapHas t.nodes pid) &&
    p.2.childIds.all (fun c =>
      match mapGet t.nodes c with
      | none => false
      | some child => decide (child.parentId = some p.1)))

/-! ## Node carousel (NodeCarousel.tsx 34-57) -/

/-- The `seen`-set filter of NodeCarousel.tsx 48-54: keep the first occurrence
of each node id, preserving order. -/
def dedupByIdAux (seen : List JStr) : List VideoNode → List VideoNode
  | [] => []
  | n :: rest =>
    if seen.any (fun s => s = n.id) then dedupByIdAux seen rest
    else n :: dedupByIdAux (n.id :: seen) rest

/-- Model of `getCarouselNodes` (NodeCarousel.tsx 34-57): path from the root
to the current node, followed by the current node's children, duplicates
removed while preserving order; empty when there is no current node. -/
def getCarouselNodes (t : LearningTree) : List VideoNode :=
  match getCurrentNode t with
  | none => []
  | some currentNode =>
    let pathNodes := getPathFromRoot t currentNode.id
    let children := getChildren t currentNode.id
    dedupByIdAux [] (pathNodes ++ children)

/-! ## Semantic search (searchService.ts 190-267) -/

/-- A search hit as pushed by searchService.ts 244-249 (scores kept exact over
`ℤ` in this embedding; the claims about search concern only count, order and
membership, which do not depend on the score field's arithmetic). -/
structure SearchResult where
  nodeId : JStr
  similarity : ℤ
deriving DecidableEq

/-- Dot product of two embedding vectors (searchService.ts 196-199). -/
def dotProduct (a b : List ℤ) : ℤ :=
  (a.zip b).foldl (fun acc p => acc + p.1 * p.2) 0

/-- Model of `cosineSimilarity` (searchService.ts 190-202): the embeddings are
normalized so it is the dot product; a dimension mismatch throws, modelled as
`none`. -/
def cosineSimilarity (a b : List ℤ) : Option ℤ :=
  if a.length = b.length then some (dotProduct a b) else none

/-- Descending-similarity order of the comparator at searchService.ts 253. -/
def bySimilarityDesc (a b : SearchResult) : Prop := b.similarity ≤ a.similarity

instance : DecidableRel bySimilarityDesc := fun a b => inferInstanceAs (Decidable (b.similarity ≤ a.similarity))

instance : IsTotal SearchResult bySimilarityDesc := ⟨fun a b => le_total b.similarity a.similarity⟩

instance : IsTrans SearchResult bySimilarityDesc := ⟨fun _ _ _ h h' => le_trans h' h⟩

/-- Model of the scoring phase of `searchNodes` (searchService.ts 236-259),
taking the already-embedded query and the tree as of after the embedding
phase: score every node that has an embedding, sort by descending similarity,
keep the first `topK`.  A dimension mismatch inside the loop throws and is
caught by the surrounding handler, so no result list is produced (`none`). -/
def searchNodesCore (queryEmbedding : List ℤ) (t : LearningTree) (topK : Nat) :
    Option (List SearchResult) :=
  let embedded := (getAllNodes t).filterMap (fun n => n.segment.embedding.map (fun e => (n.id, e)))
  if embedded.all (fun p => p.2.length = queryEmbedding.length) then
    some ((List.insertionSort bySimilarityDesc
      (embedded.map (fun p => { nodeId := p.1, similarity := dotProduct queryEmbedding p.2 }))).take topK)
  else none

/-! ## Generation Orchestrator (spec §4.4 and §7).  The orchestrator
(`VideoController.tsx`) is imported by every page but its file is not in the
tree, so the job state machine and the commit step are modelled from the
specification. -/

/-- Modelled from the spec: the five job kinds of §3 (`VideoController.tsx`
missing from the tree). -/
inductive JobKind where
  | initialTopic
  | newTopic
  | questionBranch
  | quizRemediation
  | closingReflection
deriving DecidableEq

/-- Modelled from the spec: the job state machine of §4.4,
`pending -> generating -> completed | failed`. -/
inductive JobStatus where
  | pending
  | generating
  | completed
  | failed
deriving DecidableEq

/-- Modelled from the spec: a tracked Generation Job (§3). -/
structure GenJob where
  id : Nat
  kind : JobKind
  targetParentId : Option JStr
  status : JobStatus
  resultNodeIds : List JStr
deriving DecidableEq

/-- Orchestrator state: the shared tree plus the active-jobs list. -/
structure OrchestratorState where
  tree : LearningTree
  jobs : List GenJob
deriving DecidableEq

/-- Job lookup by id. -/
def getJob (jobs : List GenJob) (jid : Nat) : Option GenJob :=
  jobs.find? (fun j => j.id = jid)

/-- Modelled from the spec: accepting a user intent creates a `pending` job
with empty `resultNodeIds` and does not touch the tree (§4.4). -/
def submitJob (st : OrchestratorState) (jid : Nat) (kind : JobKind)
    (target : Option JStr) : OrchestratorState :=
  { st with jobs := st.jobs ++ [{ id := jid, kind := kind, targetParentId := target,
                                  status := .pending, resultNodeIds := [] }] }

/-- Modelled from the spec: dispatching the external call moves the job from
`pending` to `generating`; streamed progress never mutates the tree (§4.4). -/
def startJob (st : OrchestratorState) (jid : Nat) : OrchestratorState :=
  { st with jobs := st.jobs.map (fun j =>
      if j.id = jid ∧ j.status = .pending then { j with status := .generating } else j) }

/-- Append one node as a child of `parentKey` (spec §4.1 `appendChild`):
`branchIndex` is the parent's current child count, the parent's `childIds`
gains the id, and the node enters the map. -/
def appendChildNode (t : LearningTree) (parentKey : JStr) (newId : JStr)
    (seg : VideoSegment) : Option LearningTree :=
  match mapGet t.nodes parentKey with
  | none => none
  | some parent =>
    let withLink := t.nodes.map (fun p =>
      if p.1 = parentKey then (p.1, { p.2 with childIds := p.2.childIds ++ [newId] }) else p)
    let newNode : VideoNode :=
      { id := newId, segment := seg, parentId := some parentKey, childIds := [],
        branchIndex := parent.childIds.length, branchLabel := none }
    some { t with nodes := mapSet withLink newId newNode }

/-- Insert one node as a new root (spec §4.1 `createRoot`). -/
def createRootNode (t : LearningTree) (newId : JStr) (seg : VideoSegment) : LearningTree :=
  { t with
    nodes := mapSet t.nodes newId
      { id := newId, segment := seg, parentId := none, childIds := [],
        branchIndex := t.rootIds.length, branchLabel := none },
    rootIds := t.rootIds ++ [newId] }

/-- Modelled from the spec: the atomic commit of a job's resulting segment
chain (§4.1, §4.4) — each segment becomes a child of the previous one, the
first attaching under the target parent (or as a new root).  A missing target
parent or a colliding id is a `CommitFailed`: the whole commit yields `none`
and, being a pure function, leaves no partial state behind. -/
def commitChain : LearningTree → Option JStr → List (JStr × VideoSegment) →
    Option (LearningTree × List JStr)
  | t, _, [] => some (t, [])
  | t, none, (nid, seg) :: rest =>
    if mapHas t.nodes nid then none
    else
      match commitChain (createRootNode t nid seg) (some nid) rest with
      | none => none
      | some (t2, ids) => some (t2, nid :: ids)
  | t, some pid, (nid, seg) :: rest =>
    if mapHas t.nodes nid then none
    else
      match appendChildNode t pid nid seg with
      | none => none
      | some t1 =>
        match commitChain t1 (some nid) rest with
        | none => none
        | some (t2, ids) => some (t2, nid :: ids)

/-- Modelled from the spec: the terminal event of the external call (§6, §7) —
an error or timeout, an explicit cancellation, or an ordered list of segment
descriptors (paired here with the fresh node ids the commit will use). -/
inductive JobOutcome where
  | serviceError (reason : JStr)
  | cancelled
  | success (results : List (JStr × VideoSegment))

/-- Modelled from the spec: resolving a `generating` job on its terminal event
(§4.4, §7).  A successful commit marks the job `completed` and records its
`resultNodeIds`; a service error, a cancellation, or a commit failure marks it
`failed` with no nodes committed and the tree untouched.  Terminal jobs are
never resolved again. -/
def finishJob (st : OrchestratorState) (jid : Nat) (outcome : JobOutcome) :
    OrchestratorState :=
  match getJob st.jobs jid with
  | none => st
  | some j =>
    if j.status = .generating then
      match outcome with
      | .success results =>
        match commitChain st.tree j.targetParentId results with
        | some (t', ids) =>
          { tree := t',
            jobs := st.jobs.map (fun j' =>
              if j'.id = jid then { j' with status := .completed, resultNodeIds := ids } else j') }
        | none =>
          { st with jobs := st.jobs.map (fun j' =>
              if j'.id = jid then { j' with status := .failed, resultNodeIds := [] } else j') }
      | _ =>
        { st with jobs := st.jobs.map (fun j' =>
            if j'.id = jid then { j' with status := .failed, resultNodeIds := [] } else j') }
    else st

/-! ## Fixtures used by the witnesses -/

/-- A plain segment with both optional search-metadata fields populated. -/
def segIntro : VideoSegment :=
  { topic := "Photosynthesis".toList, title := some "Intro".toList,
    voiceoverScript := some "Plants turn light into sugar".toList,
    thumbnailUrl := none, videoUrl := some "https://cdn/x.mp4".toList,
    isQuestionNode := false, hasQuestion := false, questionText := none,
    renderingStatus := some "done".toList, embedding := some [1, 0],
    description := some "intro".toList }

/-- A second segment with a different embedding. -/
def segLight : VideoSegment :=
  { segIntro with title := some "Light reactions".toList, embedding := some [0, 1],
                  description := none }

/-- Root node of the demo tree. -/
def nodeA : VideoNode :=
  { id := "a".toList, segment := segIntro, parentId := none,
    childIds := ["b".toList], branchIndex := 0, branchLabel := none }

/-- Child node of the demo tree. -/
def nodeB : VideoNode :=
  { id := "b".toList, segment := segLight, parentId := some "a".toList,
    childIds := [], branchIndex := 0, branchLabel := some "question".toList }

/-- A small well-formed tree: root `a` with one child `b`. -/
def demoTree : LearningTree :=
  { nodes := [("a".toList, nodeA), ("b".toList, nodeB)],
    rootIds := ["a".toList], currentNodeId := "a".toList }

/-- Demo context. -/
def demoContext : SessionContext :=
  { initialTopic := "Photosynthesis".toList,
    historyTopics := ["Photosynthesis".toList], depth := 2, voiceId := none }

/-- Demo session over `demoTree`. -/
def demoSession : VideoSession :=
  { tree := demoTree, context := demoContext, sessionId := "cached_demo".toList }

/-- A serialized tree whose only node lists a child id that is not a key. -/
def ghostTree : LearningTree :=
  { nodes := [("a".toList,
      { id := "a".toList, segment := segIntro, parentId := none,
        childIds := ["ghost".toList], branchIndex := 0, branchLabel := none })],
    rootIds := ["a".toList], currentNodeId := "a".toList }

/-- A serialized session over `ghostTree`. -/
def ghostData : VideoSession :=
  { tree := ghostTree, context := demoContext, sessionId := "cached_ghost".toList }

/-- A tree whose `currentNodeId` is the empty string, which is nevertheless a
key of the node map (the empty-id node is a child of `a`). -/
def emptyKeyTree : LearningTree :=
  { nodes := [("a".toList,
      { id := "a".toList, segment := segIntro, parentId := none,
        childIds := [[]], branchIndex := 0, branchLabel := none }),
      ([], { id := [], segment := segLight, parentId := some "a".toList,
             childIds := [], branchIndex := 0, branchLabel := none })],
    rootIds := ["a".toList], currentNodeId := [] }

/-- A stored session over `emptyKeyTree`. -/
def emptyKeySession : VideoSession :=
  { tree := emptyKeyTree, context := demoContext, sessionId := "stored".toList }

/-- The session the load effect actually produces from `emptyKeySession`:
`currentNodeId` reset to the first root. -/
def emptyKeySessionReset : VideoSession :=
  { emptyKeySession with tree := { emptyKeyTree with currentNodeId := "a".toList } }

/-- Orchestrator state over the demo tree with no active jobs. -/
def demoState : OrchestratorState :=
  { tree := demoTree, jobs := [] }

/-- The failed job record left behind when demo job 1 hits a service error. -/
def failedDemoJob : GenJob :=
  { id := 1, kind := .questionBranch, targetParentId := some "a".toList,
    status := .failed, resultNodeIds := [] }

/-- The orchestrator state after demo job 1 fails: tree untouched. -/
def failedDemoState : OrchestratorState :=
  { tree := demoTree, jobs := [failedDemoJob] }

/-! ## Helper lemmas about the JS `Map` model -/

theorem mapHas_eq_isSome (m : List (JStr × α)) (k : JStr) :
    mapHas m k = (mapGet m k).isSome := by
  unfold mapHas mapGet
  cases List.find? (fun p => p.1 = k) m <;> rfl

theorem mapGet_mem {m : List (JStr × α)} {k : JStr} {v : α}
    (h : mapGet m k = some v) : (k, v) ∈ m := by
  unfold mapGet at h
  cases hf : List.find? (fun p => p.1 = k) m with
  | none => rw [hf] at h; exact absurd h (by simp)
  | some q =>
    rw [hf] at h
    have hq : q ∈ m := List.mem_of_find?_eq_some hf
    have hk : q.1 = k := by have := List.find?_some hf; simpa using this
    have hv : q.2 = v := by simpa using h
    have : q = (k, v) := Prod.ext hk hv
    rwa [this] at hq

theorem mapGet_of_nodup_mem {m : List (JStr × α)}
    (hnd : (m.map Prod.fst).Nodup) {p : JStr × α} (hp : p ∈ m) :
    mapGet m p.1 = some p.2 := by
  induction m with
  | nil => cases hp
  | cons q rest ih =>
    simp only [List.map_cons, List.nodup_cons] at hnd
    rcases List.mem_cons.mp hp with hq | hrest
    · subst hq
      unfold mapGet
      rw [List.find?_cons_of_pos _ (by simp)]
      rfl
    · have hq1 : ¬(q.1 = p.1) := fun he =>
        hnd.1 (he ▸ List.mem_map_of_mem Prod.fst hrest)
      unfold mapGet
      rw [List.find?_cons_of_neg _ (by simpa using hq1)]
      exact ih hnd.2 hrest

/-! ## Helper lemmas about `rebuildNodesMap` -/

theorem reconstructNode_eq (nd : VideoNode) : reconstructNode nd = nd := rfl

theorem rebuildNodesMapAux (pairs : List (JStr × VideoNode)) (acc : List (JStr × VideoNode))
    (hnd : (pairs.map Prod.fst).Nodup)
    (hdisj : ∀ p ∈ pairs, ∀ q ∈ acc, q.1 ≠ p.1) :
    pairs.foldl (fun m p => mapSet m p.1 (reconstructNode p.2)) acc = acc ++ pairs := by
  induction pairs generalizing acc with
  | nil => simp
  | cons p ps ih =>
    simp only [List.map_cons, List.nodup_cons] at hnd
    have hna : ¬(acc.any fun q => decide (q.1 = p.1)) = true := by
      simp only [List.any_eq_true, decide_eq_true_eq, not_exists, not_and]
      exact fun q hq => hdisj p (List.mem_cons_self p ps) q hq
    have hstep : mapSet acc p.1 (reconstructNode p.2) = acc ++ [p] := by
      unfold mapSet
      rw [reconstructNode_eq, if_neg hna]
    have hdisj2 : ∀ r ∈ ps, ∀ q ∈ acc ++ [p], q.1 ≠ r.1 := by
      intro r hr q hq
      rcases List.mem_append.mp hq with hqa | hqp
      · exact hdisj r (List.mem_cons_of_mem p hr) q hqa
      · have hqp2 : q = p := by simpa using hqp
        subst hqp2
        exact fun he => hnd.1 (he ▸ List.mem_map_of_mem Prod.fst hr)
    rw [List.foldl_cons, hstep, ih (acc ++ [p]) hnd.2 hdisj2]
    simp

theorem countP_key_eq_one_of_nodup {α : Type} {m : List (JStr × α)}
    (hnd : (m.map Prod.fst).Nodup) {p : JStr × α} (hp : p ∈ m) :
    m.countP (fun q => decide (q.1 = p.1)) = 1 := by
  induction m with
  | nil => cases hp
  | cons q rest ih =>
    simp only [List.map_cons, List.nodup_cons] at hnd
    rcases List.mem_cons.mp hp with hq | hrest
    · subst hq
      rw [List.countP_cons_of_pos _ _ (by simp)]
      have hz : rest.countP (fun q => decide (q.1 = p.1)) = 0 := by
        rw [List.countP_eq_zero]
        intro a ha
        simp only [decide_eq_true_eq]
        exact fun he => hnd.1 (he ▸ List.mem_map_of_mem Prod.fst ha)
      rw [hz]
    · have hne : ¬(q.1 = p.1) := fun he =>
        hnd.1 (he ▸ List.mem_map_of_mem Prod.fst hrest)
      rw [List.countP_cons_of_neg _ _ (by simpa using hne)]
      exact ih hnd.2 hrest

theorem rebuildNodesMap_eq (pairs : List (JStr × VideoNode))
    (hnd : (pairs.map Prod.fst).Nodup) : rebuildNodesMap pairs = pairs := by
  unfold rebuildNodesMap
  simpa using rebuildNodesMapAux pairs [] hnd (by simp)

/-! ## Claim C3 -/

/-- C3: for every successfully fetched and parsed serialized session (whose
serialized `[id, node]` pairs carry the pairwise-distinct keys a serialized
`Map` produces), `loadCachedSession` returns a tree whose node map has exactly
one entry per serialized pair — same length, each key occurring exactly once
and mapping to the identical node, every field (including the optional
`embedding` and `description`) preserved — and whose `rootIds` and
`currentNodeId` equal the serialized values. -/
theorem loadCachedSession_preserves_nodes (topic : JStr) (data : VideoSession)
    (htopic : hasCachedSession topic = true)
    (hnd : (data.tree.nodes.map Prod.fst).Nodup) :
    ∃ s, loadCachedSession topic (.ok data) = some s ∧
      s.tree.nodes.length = data.tree.nodes.length ∧
      (∀ p ∈ data.tree.nodes,
        s.tree.nodes.countP (fun q => decide (q.1 = p.1)) = 1 ∧
        mapGet s.tree.nodes p.1 = some p.2) ∧
      s.tree.rootIds = data.tree.rootIds ∧
      s.tree.currentNodeId = data.tree.currentNodeId ∧
      s.context = data.context ∧ s.sessionId = data.sessionId := by
  refine ⟨{ tree := { nodes := rebuildNodesMap data.tree.nodes,
                      rootIds := data.tree.rootIds,
                      currentNodeId := data.tree.currentNodeId },
            context := data.context, sessionId := data.sessionId },
          ?_, ?_, ?_, rfl, rfl, rfl, rfl⟩
  · have htopic2 : jsObjectHas CACHED_SESSIONS topic = true := htopic
    unfold loadCachedSession
    rw [if_pos htopic2]
  · show (rebuildNodesMap data.tree.nodes).length = data.tree.nodes.length
    rw [rebuildNodesMap_eq data.tree.nodes hnd]
  · intro p hp
    refine ⟨?_, ?_⟩
    · show (rebuildNodesMap data.tree.nodes).countP (fun q => decide (q.1 = p.1)) = 1
      rw [rebuildNodesMap_eq data.tree.nodes hnd]
      exact countP_key_eq_one_of_nodup hnd hp
    · show mapGet (rebuildNodesMap data.tree.nodes) p.1 = some p.2
      rw [rebuildNodesMap_eq data.tree.nodes hnd]
      exact mapGet_of_nodup_mem hnd hp

/-- Witness for C3 at the concrete topic `Photosynthesis` and `demoSession`. -/
theorem loadCachedSession_preserves_nodes_witness :
    ∃ s, loadCachedSession "Photosynthesis".toList (.ok demoSession) = some s ∧
      s.tree.nodes.length = demoSession.tree.nodes.length ∧
      (∀ p ∈ demoSession.tree.nodes,
        s.tree.nodes.countP (fun q => decide (q.1 = p.1)) = 1 ∧
        mapGet s.tree.nodes p.1 = some p.2) ∧
      s.tree.rootIds = demoSession.tree.rootIds ∧
      s.tree.currentNodeId = demoSession.tree.currentNodeId ∧
      s.context = demoSession.context ∧ s.sessionId = demoSession.sessionId :=
  loadCachedSession_preserves_nodes "Photosynthesis".toList demoSession
    (by decide) (by decide)

/-! ## Claim C7 -/

/-- Counterexample for C7: `loadCachedSession` performs no validation, so a
fetched serialized input whose node lists a nonexistent child id is returned
as a tree that violates the structural invariants (`childIdsExist` fails, and
with it the conjunction `structuralOK`). -/
theorem loadCachedSession_invariants_counterexample :
    (loadCachedSession "Photosynthesis".toList (.ok ghostData)).map
        (fun s => childIdsExist s.tree) = some false ∧
    (loadCachedSession "Photosynthesis".toList (.ok ghostData)).map
        (fun s => structuralOK s.tree) = some false := by
  constructor <;> decide

/-- C7 (amended): a tree returned by `loadCachedSession` satisfies the
structural invariants exactly when the fetched serialized input already does —
the structure is copied verbatim and no validation is performed, so the
invariants hold for well-formed serialized input, not for arbitrary input. -/
theorem loadCachedSession_preserves_invariants (topic : JStr) (data : VideoSession)
    (htopic : hasCachedSession topic = true)
    (hnd : (data.tree.nodes.map Prod.fst).Nodup) :
    ∃ s, loadCachedSession topic (.ok data) = some s ∧
      (structuralOK s.tree = structuralOK data.tree) := by
  refine ⟨{ tree := { nodes := rebuildNodesMap data.tree.nodes,
                      rootIds := data.tree.rootIds,
                      currentNodeId := data.tree.currentNodeId },
            context := data.context, sessionId := data.sessionId },
          ?_, ?_⟩
  · have htopic2 : jsObjectHas CACHED_SESSIONS topic = true := htopic
    unfold loadCachedSession
    rw [if_pos htopic2]
  · simp only [rebuildNodesMap_eq data.tree.nodes hnd]

/-- Witness for the amended C7 at `demoSession`, a serialized input satisfying
the invariants, and a check that the loaded result then satisfies them too. -/
theorem loadCachedSession_preserves_invariants_witness :
    (∃ s, loadCachedSession "Photosynthesis".toList (.ok demoSession) = some s ∧
      (structuralOK s.tree = structuralOK demoSession.tree)) ∧
    structuralOK demoSession.tree = true :=
  ⟨loadCachedSession_preserves_invariants "Photosynthesis".toList demoSession
    (by decide) (by decide), by decide⟩

/-! ## Claim C8 -/

/-- Counterexample for C8: `CACHED_SESSIONS` is a plain object literal, so the
bracket lookup for a property name inherited from `Object.prototype` — such as
`toString` — is truthy although the topic has no entry in the fixed table; the
code then takes the fetch path and, on a parsed-ok outcome, returns a non-null
session instead of null. -/
theorem loadCachedSession_prototype_counterexample :
    "toString".toList ∉ getCachedTopics ∧
    (loadCachedSession "toString".toList (.ok demoSession)).isSome = true := by
  refine ⟨by decide, by decide⟩

/-- C8 (amended): `loadCachedSession` never throws — for every topic whose
table lookup is falsy (neither an own key of the fixed table nor a property
name inherited from `Object.prototype`) it returns null whatever the fetch
would do, and for a network error, a non-ok HTTP response, or a JSON parse
failure it returns null. -/
theorem loadCachedSession_none_on_failure (topic : JStr) (outcome : FetchOutcome)
    (status : Nat) :
    (hasCachedSession topic = false → loadCachedSession topic outcome = none) ∧
    loadCachedSession topic .networkError = none ∧
    loadCachedSession topic (.httpError status) = none ∧
    loadCachedSession topic .parseError = none := by
  have hcases : ∀ oc : FetchOutcome,
      (∀ data, oc ≠ .ok data) → loadCachedSession topic oc = none := by
    intro oc hoc
    unfold loadCachedSession
    split
    · cases oc with
      | ok data => exact absurd rfl (hoc data)
      | networkError => rfl
      | httpError s => rfl
      | parseError => rfl
    · rfl
  refine ⟨?_, hcases .networkError (by intro d h; cases h),
          hcases (.httpError status) (by intro d h; cases h),
          hcases .parseError (by intro d h; cases h)⟩
  intro hmiss
  have hmiss2 : jsObjectHas CACHED_SESSIONS topic = false := hmiss
  unfold loadCachedSession
  rw [if_neg (by simp [hmiss2])]

/-- Witness for C8: the uncached topic `Ancient Rome` yields null on any
outcome, and a cached topic still yields null on a non-ok HTTP response. -/
theorem loadCachedSession_none_on_failure_witness :
    loadCachedSession "Ancient Rome".toList .parseError = none ∧
    loadCachedSession "Photosynthesis".toList (.httpError 404) = none :=
  ⟨(loadCachedSession_none_on_failure "Ancient Rome".toList .parseError 404).1
      (by decide),
   (loadCachedSession_none_on_failure "Photosynthesis".toList .parseError 404).2.2.1⟩

/-! ## Claim C4 -/

/-- C4: `matchQuestionToCachedTopic` returns some known topic exactly when the
normalized input is nonempty and contains the normalized form of a known topic
as a substring or is contained in it; any returned topic is a known topic
related to the input by substring containment either way; and it returns none
when the normalized input is empty or no known topic is so related. -/
theorem matchQuestionToCachedTopic_spec (question : JStr) :
    ((matchQuestionToCachedTopic question).isSome = true ↔
      (normalizeText question ≠ [] ∧ ∃ t ∈ getCachedTopics,
        (normalizeText t <:+: normalizeText question ∨
         normalizeText question <:+: normalizeText t))) ∧
    (∀ t, matchQuestionToCachedTopic question = some t →
      t ∈ getCachedTopics ∧
      (normalizeText t <:+: normalizeText question ∨
       normalizeText question <:+: normalizeText t)) := by
  unfold matchQuestionToCachedTopic jsIncludes
  by_cases hq : normalizeText question = []
  · rw [if_pos hq]
    constructor
    · constructor
      · intro h; cases h
      · rintro ⟨hne, -⟩; exact absurd hq hne
    · intro t h; cases h
  · rw [if_neg hq]
    constructor
    · rw [List.find?_isSome]
      constructor
      · rintro ⟨t, ht, hp⟩
        refine ⟨hq, t, ht, ?_⟩
        rcases Bool.or_eq_true_iff.mp hp with h | h
        · exact Or.inl (of_decide_eq_true h)
        · exact Or.inr (of_decide_eq_true h)
      · rintro ⟨-, t, ht, hrel⟩
        refine ⟨t, ht, ?_⟩
        rcases hrel with h | h
        · exact Bool.or_eq_true_iff.mpr (Or.inl (decide_eq_true h))
        · exact Bool.or_eq_true_iff.mpr (Or.inr (decide_eq_true h))
    · intro t hfind
      have hmem := List.mem_of_find?_eq_some hfind
      have hp := List.find?_some hfind
      refine ⟨hmem, ?_⟩
      rcases Bool.or_eq_true_iff.mp hp with h | h
      · exact Or.inl (of_decide_eq_true h)
      · exact Or.inr (of_decide_eq_true h)

/-- Witness for C4: the question `Explain PHOTOSYNTHESIS please` resolves to
the known topic `Photosynthesis`, which is related by containment. -/
theorem matchQuestionToCachedTopic_spec_witness :
    "Photosynthesis".toList ∈ getCachedTopics ∧
    (normalizeText "Photosynthesis".toList <:+:
        normalizeText "Explain PHOTOSYNTHESIS please".toList ∨
     normalizeText "Explain PHOTOSYNTHESIS please".toList <:+:
        normalizeText "Photosynthesis".toList) :=
  (matchQuestionToCachedTopic_spec "Explain PHOTOSYNTHESIS please".toList).2
    "Photosynthesis".toList (by decide)

/-! ## Claim C5 -/

/-- Counterexample for C5: `hasCachedSession` is not a normalized lookup — the
key `binary search trees` has the same case/punctuation-normalized form as the
table key `Binary Search Trees`, yet `hasCachedSession` answers `false` for
the former and `true` for the latter. -/
theorem hasCachedSession_counterexample :
    normalizeText "binary search trees".toList =
      normalizeText "Binary Search Trees".toList ∧
    "Binary Search Trees".toList ∈ getCachedTopics ∧
    hasCachedSession "Binary Search Trees".toList = true ∧
    hasCachedSession "binary search trees".toList = false := by
  refine ⟨by decide, by decide, by decide, by decide⟩

/-- C5 (amended): `hasCachedSession` performs an exact, case- and
punctuation-sensitive lookup with the JS `in` operator — it returns true
exactly when the key is literally one of the fixed table's keys or a property
name inherited from `Object.prototype` (such as `toString`); keys differing
only in case or punctuation can give different results. -/
theorem hasCachedSession_in_semantics (topic : JStr) :
    hasCachedSession topic = true ↔
      (topic ∈ getCachedTopics ∨ topic ∈ OBJECT_PROTOTYPE_KEYS) := by
  unfold hasCachedSession jsObjectHas mapHas getCachedTopics
  rw [Bool.or_eq_true, List.find?_isSome, List.any_eq_true]
  constructor
  · rintro (⟨p, hp, he⟩ | ⟨p, hp, he⟩)
    · have hpt : p.1 = topic := of_decide_eq_true he
      exact Or.inl (hpt ▸ List.mem_map_of_mem Prod.fst hp)
    · have hpt : p = topic := of_decide_eq_true he
      exact Or.inr (hpt ▸ hp)
  · rintro (ht | ht)
    · rcases List.mem_map.mp ht with ⟨p, hp, he⟩
      exact Or.inl ⟨p, hp, decide_eq_true he⟩
    · exact Or.inr ⟨topic, ht, decide_eq_true rfl⟩

/-! ## Claim C2 -/

/-- Counterexample for C2: in `emptyKeySession` the stored `currentNodeId` is
the empty string, which is a key of the node map, yet the load effect does not
keep it unchanged — JS truthiness makes the empty string fail validation, so
it is reset to the first root `a`. -/
theorem loadSessionEffect_counterexample :
    emptyKeySession.tree.nodes.length ≠ 0 ∧
    mapHas emptyKeySession.tree.nodes emptyKeySession.tree.currentNodeId = true ∧
    loadSessionEffect (some emptyKeySession) = .loaded emptyKeySessionReset ∧
    emptyKeySessionReset.tree.currentNodeId ≠ emptyKeySession.tree.currentNodeId := by
  refine ⟨by decide, by decide, by decide, by decide⟩

/-- C2 (amended): on session load with a non-empty stored tree, a stored
`currentNodeId` that is non-empty and a key of the node map is kept unchanged;
when it is empty or not a key, it is reset to the first root whenever
`rootIds` is non-empty and the session still loads. -/
theorem loadSessionEffect_spec (s : VideoSession)
    (hne : s.tree.nodes.length ≠ 0) :
    (s.tree.currentNodeId ≠ [] ∧ mapHas s.tree.nodes s.tree.currentNodeId = true →
      loadSessionEffect (some s) = .loaded s) ∧
    (¬(s.tree.currentNodeId ≠ [] ∧ mapHas s.tree.nodes s.tree.currentNodeId = true) →
      ∀ r rest, s.tree.rootIds = r :: rest →
        loadSessionEffect (some s) =
          .loaded { s with tree := { s.tree with currentNodeId := r } }) := by
  constructor
  · intro hvalid
    simp only [loadSessionEffect]
    rw [if_neg hne, if_pos hvalid]
  · intro hinvalid r rest hroots
    simp only [loadSessionEffect]
    rw [if_neg hne, if_neg hinvalid, hroots]

/-- Witness for C2 (amended), covering both branches: `demoSession` has a
valid stored position and is kept; `emptyKeySession` has an invalid one and is
reset to its first root. -/
theorem loadSessionEffect_spec_witness :
    loadSessionEffect (some demoSession) = .loaded demoSession ∧
    loadSessionEffect (some emptyKeySession) = .loaded emptyKeySessionReset :=
  ⟨(loadSessionEffect_spec demoSession (by decide)).1 (by decide),
   (loadSessionEffect_spec emptyKeySession (by decide)).2 (by decide)
     "a".toList [] (by decide)⟩

/-! ## Claim C6 -/

theorem treeWF_node {t : LearningTree} (hwf : TreeWF t = true) {k : JStr}
    {n : VideoNode} (hm : mapGet t.nodes k = some n) :
    n.id = k ∧
    (∀ pid, n.parentId = some pid → mapHas t.nodes pid = true) ∧
    (∀ c ∈ n.childIds, ∃ cn, mapGet t.nodes c = some cn ∧ cn.parentId = some k) := by
  have hmem : (k, n) ∈ t.nodes := mapGet_mem hm
  unfold TreeWF at hwf
  rw [List.all_eq_true] at hwf
  have h := hwf (k, n) hmem
  simp only [Bool.and_eq_true, decide_eq_true_eq] at h
  obtain ⟨⟨hid, hpar⟩, hchild⟩ := h
  refine ⟨hid, ?_, ?_⟩
  · intro pid hp
    rw [hp] at hpar
    exact hpar
  · intro c hc
    rw [List.all_eq_true] at hchild
    have h2 := hchild c hc
    cases hg : mapGet t.nodes c with
    | none => rw [hg] at h2; cases h2
    | some cn =>
      rw [hg] at h2
      exact ⟨cn, rfl, of_decide_eq_true h2⟩

/-- C6: over a well-formed tree, for a node with at least one child
`getNextNode` returns the child with the lowest `branchIndex` and
`getPreviousNode` of that child returns the node again; for a node with no
children `getNextNode` returns none; and `getPreviousNode` returns none
exactly for root nodes (nodes with no `parentId`). -/
theorem navigation_next_previous (t : LearningTree) (nid : JStr) (n : VideoNode)
    (hwf : TreeWF t = true) (hn : mapGet t.nodes nid = some n) :
    (∀ c, getNextNode t nid = some c →
      c.id ∈ n.childIds ∧
      (∀ x ∈ getChildren t nid, c.branchIndex ≤ x.branchIndex) ∧
      getPreviousNode t c.id = some n) ∧
    (getNextNode t nid = none ↔ n.childIds = []) ∧
    (getPreviousNode t nid = none ↔ n.parentId = none) := by
  have hgc : getChildren t nid =
      List.insertionSort byBranchIndex (n.childIds.filterMap (mapGet t.nodes)) := by
    unfold getChildren
    rw [hn]
  have hwfn := treeWF_node hwf hn
  refine ⟨?_, ?_, ?_⟩
  · intro c hc
    unfold getNextNode at hc
    rw [hgc] at hc
    cases hS : List.insertionSort byBranchIndex (n.childIds.filterMap (mapGet t.nodes)) with
    | nil => rw [hS] at hc; cases hc
    | cons a l =>
      rw [hS] at hc
      have hac : a = c := by simpa using hc
      have hcmem : c ∈ n.childIds.filterMap (mapGet t.nodes) := by
        refine (List.perm_insertionSort byBranchIndex _).mem_iff.mp ?_
        rw [hS, ← hac]
        exact List.mem_cons_self a l
      obtain ⟨cid, hcid, hcg⟩ := List.mem_filterMap.mp hcmem
      have hcidq : c.id = cid := (treeWF_node hwf hcg).1
      obtain ⟨cn, hcn, hcnp⟩ := hwfn.2.2 cid hcid
      have hcc : c = cn := Option.some_inj.mp (hcg.symm.trans hcn)
      have hcp : c.parentId = some nid := by rw [hcc]; exact hcnp
      refine ⟨hcidq.symm ▸ hcid, ?_, ?_⟩
      · intro x hx
        rw [hgc, hS] at hx
        have hsorted := List.sorted_insertionSort byBranchIndex
          (n.childIds.filterMap (mapGet t.nodes))
        rw [hS, List.sorted_cons] at hsorted
        rcases List.mem_cons.mp hx with hxa | hxl
        · rw [hxa, ← hac]
        · exact hac ▸ hsorted.1 x hxl
      · unfold getPreviousNode
        simp only [hcidq, hcg, hcp, hn]
  · unfold getNextNode
    rw [hgc]
    rw [List.head?_eq_none_iff]
    constructor
    · intro hS
      have hL : n.childIds.filterMap (mapGet t.nodes) = [] := by
        have hperm := List.perm_insertionSort byBranchIndex
          (n.childIds.filterMap (mapGet t.nodes))
        rw [hS] at hperm
        exact (List.Perm.nil_eq hperm).symm
      cases hcid : n.childIds with
      | nil => rfl
      | cons c cs =>
        obtain ⟨cn, hcn, -⟩ := hwfn.2.2 c (by rw [hcid]; exact List.mem_cons_self c cs)
        have hmem2 : cn ∈ n.childIds.filterMap (mapGet t.nodes) :=
          List.mem_filterMap.mpr ⟨c, by rw [hcid]; exact List.mem_cons_self c cs, hcn⟩
        rw [hL] at hmem2
        cases hmem2
    · intro hcid
      rw [hcid]
      rfl
  · unfold getPreviousNode
    simp only [hn]
    cases hp : n.parentId with
    | none => simp [hp]
    | some pid =>
      have hhas := hwfn.2.1 pid hp
      rw [mapHas_eq_isSome] at hhas
      obtain ⟨parent, hparent⟩ := Option.isSome_iff_exists.mp hhas
      simp [hp, hparent]

/-- Witness for C6 at the root of `demoTree`, whose one child is `nodeB`. -/
theorem navigation_next_previous_witness :
    (∀ c, getNextNode demoTree "a".toList = some c →
      c.id ∈ nodeA.childIds ∧
      (∀ x ∈ getChildren demoTree "a".toList, c.branchIndex ≤ x.branchIndex) ∧
      getPreviousNode demoTree c.id = some nodeA) ∧
    (getNextNode demoTree "a".toList = none ↔ nodeA.childIds = []) ∧
    (getPreviousNode demoTree "a".toList = none ↔ nodeA.parentId = none) :=
  navigation_next_previous demoTree "a".toList nodeA (by decide) (by decide)

/-! ## Claim C9 -/

/-- C9: a successful `searchNodes` scoring pass returns at most `topK`
results, sorted in non-increasing order of similarity, and every result
refers to a node of the tree whose segment has an embedding. -/
theorem searchNodes_spec (qe : List ℤ) (t : LearningTree) (topK : Nat)
    (rs : List SearchResult) (h : searchNodesCore qe t topK = some rs) :
    rs.length ≤ topK ∧
    List.Sorted bySimilarityDesc rs ∧
    ∀ r ∈ rs, ∃ n ∈ getAllNodes t,
      n.id = r.nodeId ∧ n.segment.embedding.isSome = true := by
  unfold searchNodesCore at h
  dsimp only at h
  split at h
  · have hrs := Option.some_inj.mp h
    refine ⟨?_, ?_, ?_⟩
    · rw [← hrs]
      exact List.length_take_le _ _
    · rw [← hrs]
      exact List.Pairwise.sublist (List.take_sublist _ _)
        (List.sorted_insertionSort bySimilarityDesc _)
    · intro r hr
      rw [← hrs] at hr
      have hr2 := (List.take_sublist _ _).subset hr
      have hr3 := (List.perm_insertionSort bySimilarityDesc _).mem_iff.mp hr2
      obtain ⟨p, hp, hpe⟩ := List.mem_map.mp hr3
      obtain ⟨n, hn, hne⟩ := List.mem_filterMap.mp hp
      cases hcase : n.segment.embedding with
      | none => rw [hcase] at hne; cases hne
      | some e =>
        rw [hcase] at hne
        have hp2 : (n.id, e) = p := by simpa using hne
        refine ⟨n, hn, ?_, by rw [hcase]; rfl⟩
        rw [← hpe, ← hp2]
  · cases h

/-- Witness for C9: searching `demoTree` with query embedding `[1, 0]` and
`topK = 1` returns the single best hit, node `a`. -/
theorem searchNodes_spec_witness :
    ([({ nodeId := "a".toList, similarity := 1 } : SearchResult)].length ≤ 1) ∧
    List.Sorted bySimilarityDesc [({ nodeId := "a".toList, similarity := 1 } : SearchResult)] ∧
    ∀ r ∈ [({ nodeId := "a".toList, similarity := 1 } : SearchResult)],
      ∃ n ∈ getAllNodes demoTree,
        n.id = r.nodeId ∧ n.segment.embedding.isSome = true :=
  searchNodes_spec [1, 0] demoTree 1
    [{ nodeId := "a".toList, similarity := 1 }] (by decide)

/-! ## Claim C10 -/

theorem dedupByIdAux_sublist (seen : List JStr) (l : List VideoNode) :
    (dedupByIdAux seen l).Sublist l := by
  induction l generalizing seen with
  | nil => exact List.Sublist.refl []
  | cons n rest ih =>
    unfold dedupByIdAux
    split
    · exact (ih seen).cons n
    · exact (ih (n.id :: seen)).cons₂ n

theorem dedupByIdAux_nodup (seen : List JStr) (l : List VideoNode) :
    ((dedupByIdAux seen l).map VideoNode.id).Nodup ∧
    ∀ x ∈ dedupByIdAux seen l, x.id ∉ seen := by
  induction l generalizing seen with
  | nil => exact ⟨List.nodup_nil, by intro x hx; cases hx⟩
  | cons n rest ih =>
    unfold dedupByIdAux
    split
    · exact ih seen
    · rename_i hseen
      have hni : n.id ∉ seen := by
        intro hmem
        exact hseen (List.any_eq_true.mpr ⟨n.id, hmem, by simp⟩)
      obtain ⟨ihnd, ihseen⟩ := ih (n.id :: seen)
      constructor
      · rw [List.map_cons, List.nodup_cons]
        refine ⟨?_, ihnd⟩
        intro hmem
        obtain ⟨x, hx, hxe⟩ := List.mem_map.mp hmem
        exact (ihseen x hx) (by rw [hxe]; exact List.mem_cons_self _ _)
      · intro x hx
        rcases List.mem_cons.mp hx with hxn | hxr
        · subst hxn; exact hni
        · intro hmem
          exact (ihseen x hxr) (List.mem_cons_of_mem _ hmem)

theorem dedupByIdAux_covers (seen : List JStr) (l : List VideoNode) :
    ∀ x ∈ l, x.id ∈ seen ∨ x.id ∈ (dedupByIdAux seen l).map VideoNode.id := by
  induction l generalizing seen with
  | nil => intro x hx; cases hx
  | cons n rest ih =>
    intro x hx
    unfold dedupByIdAux
    split
    · rename_i hseen
      have hnseen : n.id ∈ seen := by
        obtain ⟨a, ha, hae⟩ := List.any_eq_true.mp hseen
        have hae2 : a = n.id := of_decide_eq_true hae
        rwa [hae2] at ha
      rcases List.mem_cons.mp hx with hxn | hxr
      · subst hxn; exact Or.inl hnseen
      · exact ih seen x hxr
    · rcases List.mem_cons.mp hx with hxn | hxr
      · subst hxn
        exact Or.inr (by rw [List.map_cons]; exact List.mem_cons_self _ _)
      · rcases ih (n.id :: seen) x hxr with hin | hout
        · rcases List.mem_cons.mp hin with heq | hseen2
          · exact Or.inr (by rw [List.map_cons, heq]; exact List.mem_cons_self _ _)
          · exact Or.inl hseen2
        · exact Or.inr (by rw [List.map_cons]; exact List.mem_cons_of_mem _ hout)

/-- C10: the carousel is empty when the tree has no current node; otherwise it
is the path from the root to the current node followed by the current node's
children with later duplicates removed — an order-preserving sublist of
path ++ children whose ids are pairwise distinct and which retains an
occurrence of every id of path ++ children. -/
theorem getCarouselNodes_spec (t : LearningTree) :
    (getCurrentNode t = none → getCarouselNodes t = []) ∧
    (∀ cur, getCurrentNode t = some cur →
      (getCarouselNodes t).Sublist
        (getPathFromRoot t cur.id ++ getChildren t cur.id) ∧
      ((getCarouselNodes t).map VideoNode.id).Nodup ∧
      (∀ x ∈ getPathFromRoot t cur.id ++ getChildren t cur.id,
        x.id ∈ (getCarouselNodes t).map VideoNode.id)) := by
  constructor
  · intro h
    unfold getCarouselNodes
    rw [h]
  · intro cur h
    unfold getCarouselNodes
    rw [h]
    refine ⟨?_, ?_, ?_⟩
    · exact dedupByIdAux_sublist [] _
    · exact (dedupByIdAux_nodup [] _).1
    · intro x hx
      rcases dedupByIdAux_covers [] _ x hx with hin | hout
      · cases hin
      · exact hout

/-- Witness for C10 at `demoTree`: the current node is the root `a` and the
carousel is the deduplicated path-plus-children sequence. -/
theorem getCarouselNodes_spec_witness :
    (getCarouselNodes demoTree).Sublist
      (getPathFromRoot demoTree nodeA.id ++ getChildren demoTree nodeA.id) ∧
    ((getCarouselNodes demoTree).map VideoNode.id).Nodup ∧
    (∀ x ∈ getPathFromRoot demoTree nodeA.id ++ getChildren demoTree nodeA.id,
      x.id ∈ (getCarouselNodes demoTree).map VideoNode.id) :=
  (getCarouselNodes_spec demoTree).2 nodeA (by decide)

/-! ## Claim C1 -/

theorem map_preserve {l : List GenJob} {jid : Nat} (g : GenJob → GenJob)
    (hl : ∀ j ∈ l, j.id ≠ jid) (hg : ∀ j, j.id ≠ jid → g j = j) : l.map g = l := by
  induction l with
  | nil => rfl
  | cons a rest ih =>
    rw [List.map_cons, hg a (hl a (List.mem_cons_self a rest)),
      ih (fun j hj => hl j (List.mem_cons_of_mem a hj))]

theorem getJob_fresh_append (l : List GenJob) (jid : Nat) (x : GenJob)
    (hl : ∀ j ∈ l, j.id ≠ jid) (hx : x.id = jid) :
    getJob (l ++ [x]) jid = some x := by
  unfold getJob
  rw [List.find?_append]
  have hnone : l.find? (fun j => j.id = jid) = none := by
    rw [List.find?_eq_none]
    intro j hj
    simpa using hl j hj
  rw [hnone]
  simp [hx]

/-- C1: a generation job that ends `failed` — external service error, explicit
cancellation, or commit failure — leaves the tree exactly as it was
immediately before the job was submitted (same tree, hence same `nodes.size`,
same `rootIds`, and every node's fields unchanged), and zero nodes from the
job are committed (`resultNodeIds` is empty). -/
theorem failedGeneration_frame (st : OrchestratorState) (jid : Nat)
    (kind : JobKind) (target : Option JStr) (outcome : JobOutcome)
    (stF : OrchestratorState) (jF : GenJob)
    (hfresh : ∀ j ∈ st.jobs, j.id ≠ jid)
    (hrun : finishJob (startJob (submitJob st jid kind target) jid) jid outcome = stF)
    (hget : getJob stF.jobs jid = some jF)
    (hfail : jF.status = .failed) :
    stF.tree = st.tree ∧
    stF.tree.nodes.length = st.tree.nodes.length ∧
    stF.tree.rootIds = st.tree.rootIds ∧
    jF.resultNodeIds = [] := by
  subst hrun
  have hjobs1 : (startJob (submitJob st jid kind target) jid).jobs =
      st.jobs ++ [{ id := jid, kind := kind, targetParentId := target,
                    status := .generating, resultNodeIds := [] }] := by
    unfold startJob submitJob
    dsimp only
    rw [List.map_append]
    congr 1
    · exact map_preserve _ hfresh (fun j hj => if_neg (fun hc => hj hc.1))
    · simp
  have hget2 : getJob (startJob (submitJob st jid kind target) jid).jobs jid =
      some { id := jid, kind := kind, targetParentId := target,
             status := .generating, resultNodeIds := [] } := by
    rw [hjobs1]
    exact getJob_fresh_append st.jobs jid _ hfresh rfl
  cases outcome with
  | serviceError reason =>
    have hfj : finishJob (startJob (submitJob st jid kind target) jid) jid
        (.serviceError reason) =
        { tree := st.tree,
          jobs := st.jobs ++ [{ id := jid, kind := kind, targetParentId := target,
                                status := .failed, resultNodeIds := [] }] } := by
      unfold finishJob
      rw [hget2]
      dsimp only
      rw [if_pos rfl]
      have hjobs2 : (startJob (submitJob st jid kind target) jid).jobs.map
          (fun j1 => if j1.id = jid
            then { j1 with status := JobStatus.failed, resultNodeIds := [] } else j1) =
          st.jobs ++ [{ id := jid, kind := kind, targetParentId := target,
                        status := .failed, resultNodeIds := [] }] := by
        rw [hjobs1, List.map_append]
        congr 1
        · exact map_preserve _ hfresh (fun j hj => if_neg hj)
        · simp
      rw [hjobs2]
      rfl
    rw [hfj] at hget
    rw [getJob_fresh_append st.jobs jid _ hfresh rfl] at hget
    have hj2 : jF = { id := jid, kind := kind, targetParentId := target,
                      status := .failed, resultNodeIds := [] } :=
      (Option.some_inj.mp hget).symm
    refine ⟨by rw [hfj], by rw [hfj], by rw [hfj], by rw [hj2]⟩
  | cancelled =>
    have hfj : finishJob (startJob (submitJob st jid kind target) jid) jid
        .cancelled =
        { tree := st.tree,
          jobs := st.jobs ++ [{ id := jid, kind := kind, targetParentId := target,
                                status := .failed, resultNodeIds := [] }] } := by
      unfold finishJob
      rw [hget2]
      dsimp only
      rw [if_pos rfl]
      have hjobs2 : (startJob (submitJob st jid kind target) jid).jobs.map
          (fun j1 => if j1.id = jid
            then { j1 with status := JobStatus.failed, resultNodeIds := [] } else j1) =
          st.jobs ++ [{ id := jid, kind := kind, targetParentId := target,
                        status := .failed, resultNodeIds := [] }] := by
        rw [hjobs1, List.map_append]
        congr 1
        · exact map_preserve _ hfresh (fun j hj => if_neg hj)
        · simp
      rw [hjobs2]
      rfl
    rw [hfj] at hget
    rw [getJob_fresh_append st.jobs jid _ hfresh rfl] at hget
    have hj2 : jF = { id := jid, kind := kind, targetParentId := target,
                      status := .failed, resultNodeIds := [] } :=
      (Option.some_inj.mp hget).symm
    refine ⟨by rw [hfj], by rw [hfj], by rw [hfj], by rw [hj2]⟩
  | success results =>
    cases hcc : commitChain (startJob (submitJob st jid kind target) jid).tree
        target results with
    | none =>
      have hfj : finishJob (startJob (submitJob st jid kind target) jid) jid
          (.success results) =
          { tree := st.tree,
            jobs := st.jobs ++ [{ id := jid, kind := kind, targetParentId := target,
                                  status := .failed, resultNodeIds := [] }] } := by
        unfold finishJob
        rw [hget2]
        dsimp only
        rw [if_pos rfl, hcc]
        dsimp only
        have hjobs2 : (startJob (submitJob st jid kind target) jid).jobs.map
            (fun j1 => if j1.id = jid
              then { j1 with status := JobStatus.failed, resultNodeIds := [] } else j1) =
            st.jobs ++ [{ id := jid, kind := kind, targetParentId := target,
                          status := .failed, resultNodeIds := [] }] := by
          rw [hjobs1, List.map_append]
          congr 1
          · exact map_preserve _ hfresh (fun j hj => if_neg hj)
          · simp
        rw [hjobs2]
        rfl
      rw [hfj] at hget
      rw [getJob_fresh_append st.jobs jid _ hfresh rfl] at hget
      have hj2 : jF = { id := jid, kind := kind, targetParentId := target,
                        status := .failed, resultNodeIds := [] } :=
        (Option.some_inj.mp hget).symm
      refine ⟨by rw [hfj], by rw [hfj], by rw [hfj], by rw [hj2]⟩
    | some pr =>
      obtain ⟨tNew, ids⟩ := pr
      have hfj : finishJob (startJob (submitJob st jid kind target) jid) jid
          (.success results) =
          { tree := tNew,
            jobs := st.jobs ++ [{ id := jid, kind := kind, targetParentId := target,
                                  status := .completed, resultNodeIds := ids }] } := by
        unfold finishJob
        rw [hget2]
        dsimp only
        rw [if_pos rfl, hcc]
        dsimp only
        have hjobs2 : (startJob (submitJob st jid kind target) jid).jobs.map
            (fun j1 => if j1.id = jid
              then { j1 with status := JobStatus.completed, resultNodeIds := ids } else j1) =
            st.jobs ++ [{ id := jid, kind := kind, targetParentId := target,
                          status := .completed, resultNodeIds := ids }] := by
          rw [hjobs1, List.map_append]
          congr 1
          · exact map_preserve _ hfresh (fun j hj => if_neg hj)
          · simp
        rw [hjobs2]
      rw [hfj] at hget
      rw [getJob_fresh_append st.jobs jid _ hfresh rfl] at hget
      have hj2 : jF = { id := jid, kind := kind, targetParentId := target,
                        status := .completed, resultNodeIds := ids } :=
        (Option.some_inj.mp hget).symm
      rw [hj2] at hfail
      cases hfail

/-- Witness for C1: submitting question-branch job 1 against `demoState` and
failing it with a service error leaves the demo tree untouched and the job
with no committed nodes. -/
theorem failedGeneration_frame_witness :
    failedDemoState.tree = demoState.tree ∧
    failedDemoState.tree.nodes.length = demoState.tree.nodes.length ∧
    failedDemoState.tree.rootIds = demoState.tree.rootIds ∧
    failedDemoJob.resultNodeIds = [] :=
  failedGeneration_frame demoState 1 .questionBranch (some "a".toList)
    (.serviceError "service unavailable".toList) failedDemoState failedDemoJob
    (by decide) (by decide) (by decide) (by decide)

/-- Witness for the amended C5: a literal table key and an inherited
`Object.prototype` property name both answer true. -/
theorem hasCachedSession_in_semantics_witness :
    hasCachedSession "Binary Search Trees".toList = true ∧
    hasCachedSession "toString".toList = true :=
  ⟨(hasCachedSession_in_semantics "Binary Search Trees".toList).mpr (by decide),
   (hasCachedSession_in_semantics "toString".toList).mpr (by decide)⟩
